import Mathlib

/-!
Shallow embedding of `src/app/main.py` of the basic-shell-emulator
repository, together with theorems about its command resolution and
execution pipeline.

Python strings are modelled as `List Char` (`Str`); Python `dict`s used
as lookup tables are modelled as functions into `Option`; operating
system calls (directory listing, `chdir`, file reads, process spawning,
terminal and file writes) are abstracted as explicit function
parameters or emitted action values so that every definition stays
executable.  `None`-or-string values tested by Python truthiness are
modelled by `Option Str` together with `truthy`.
-/

namespace Shell

/-- Python `str`, modelled as a list of characters. -/
abbrev Str := List Char

/-- Python truthiness of a `None`-or-string value: `None` and the empty
string are falsy, every other string is truthy. -/
def truthy : Option Str → Bool
  | none => false
  | some s => !s.isEmpty

/-! ## Executable discovery (`discover_system_executables`) -/

/-- The two `OSError` subclasses the program catches. -/
inductive OSErr where
  | fileNotFound
  | permissionDenied
deriving DecidableEq, Repr

/-- The operating-system facts `discover_system_executables` consults:
`os.path.isdir`, `os.listdir` (which may raise), `os.path.isfile` and
`os.access(•, os.X_OK)`. -/
structure Sys where
  isdir : Str → Bool
  listdir : Str → Except OSErr (List Str)
  isfile : Str → Bool
  access_x : Str → Bool

/-- Model of `os.path.join(directory, filename)` for a directory without a
trailing separator. -/
def joinPath (directory filename : Str) : Str := directory ++ ['/'] ++ filename

/-- Predicate `is_executable(path)`: regular file and execute permission. -/
def is_executable (sys : Sys) (path : Str) : Bool :=
  sys.isfile path && sys.access_x path

/-- The inner `for filename in os.listdir(directory)` loop: each
executable file is written into `full_path_executable_cache`
(`dict` assignment, so a later write overwrites an earlier one). -/
def scanDirFiles (sys : Sys) (directory : Str) :
    List Str → (Str → Option Str) → (Str → Option Str)
  | [], cache => cache
  | filename :: rest, cache =>
    let full_path := joinPath directory filename
    if is_executable sys full_path then
      scanDirFiles sys directory rest
        (fun n => if n = filename then some full_path else cache n)
    else
      scanDirFiles sys directory rest cache

/-- The outer `for directory in os.environ["PATH"].split(...)` loop:
non-directories are skipped, a failing `os.listdir` is caught (warning
printed) and the scan continues. -/
def discoverLoop (sys : Sys) : List Str → (Str → Option Str) → (Str → Option Str)
  | [], cache => cache
  | directory :: rest, cache =>
    if sys.isdir directory then
      match sys.listdir directory with
      | .ok files => discoverLoop sys rest (scanDirFiles sys directory files cache)
      | .error _ => discoverLoop sys rest cache
    else
      discoverLoop sys rest cache

/-- Function `discover_system_executables()` restricted to the
`full_path_executable_cache` it populates, starting from an empty
cache. -/
def discover_system_executables (sys : Sys) (path_dirs : List Str) : Str → Option Str :=
  discoverLoop sys path_dirs (fun _ => none)

/-- A world with directories `/a` and `/b` that both list an executable
file `foo`. -/
def cacheDemoSys : Sys where
  isdir := fun _ => true
  listdir := fun _ => .ok ["foo".toList]
  isfile := fun _ => true
  access_x := fun _ => true

/-! ## `type` builtin (`handle_type_command`) -/

/-- The keys of the `commands` registry built in `main`. -/
def builtin_commands : List Str :=
  ["exit".toList, "echo".toList, "type".toList, "pwd".toList, "cd".toList, "cat".toList]

/-- Handler `handle_type_command(args, commands)`, with the
`full_path_executable_cache` passed explicitly.  `elif full_command:`
is Python truthiness on a `None`-or-string value. -/
def handle_type_command (cache : Str → Option Str) (commands : List Str)
    (args : List Str) : Str × Str :=
  match args with
  | [] => ([], "type: missing argument\n".toList)
  | command_name :: _ =>
    let full_command := cache command_name
    if command_name ∈ commands ∧ command_name ≠ "cat".toList then
      (command_name ++ " is a shell builtin\n".toList, [])
    else if truthy full_command then
      (command_name ++ " is ".toList ++ full_command.getD [] ++ ['\n'], [])
    else
      ([], command_name ++ ": not found\n".toList)

/-! ## `cd` builtin (`handle_change_directory`) -/

/-- Outcome of `os.chdir(target)` from a given working directory: on
success the process working directory becomes `new_cwd`; the two caught
exceptions leave it unchanged. -/
inductive ChdirOutcome where
  | ok (new_cwd : Str)
  | fileNotFound
  | permissionDenied
deriving DecidableEq, Repr

/-- The target directory chosen by `handle_change_directory`:
`os.environ.get("HOME", "/") if not args or args[0] == "~" else args[0]`. -/
def cd_target (home : Option Str) (args : List Str) : Str :=
  match args with
  | [] => home.getD ['/']
  | a :: _ => if a = ['~'] then home.getD ['/'] else a

/-- Handler `handle_change_directory(args)`.  Returns the `(stdout, stderr)`
pair together with the process working directory after the call. -/
def handle_change_directory (home : Option Str) (chdir : Str → Str → ChdirOutcome)
    (cwd : Str) (args : List Str) : (Str × Str) × Str :=
  let target_dir := cd_target home args
  match chdir cwd target_dir with
  | .ok new_cwd => (([], []), new_cwd)
  | .fileNotFound =>
    (([], "cd: ".toList ++ target_dir ++ ": No such file or directory\n".toList), cwd)
  | .permissionDenied =>
    (([], "cd: ".toList ++ target_dir ++ ": Permission denied\n".toList), cwd)

/-- A `chdir` that always fails with `FileNotFoundError`. -/
def failChdir : Str → Str → ChdirOutcome := fun _ _ => .fileNotFound

/-! ## `cat` builtin (`handle_cat_command`) -/

/-- Outcome of `open(path, 'r')` followed by `f.read()`: the full
contents, or one of the two caught exceptions. -/
inductive ReadOutcome where
  | ok (contents : Str)
  | fileNotFound
  | permissionDenied
deriving DecidableEq, Repr

/-- The `for path in args` loop of `handle_cat_command`, accumulating
`stdout` and `stderr` by string concatenation. -/
def handle_cat_loop (fs : Str → ReadOutcome) (acc_out acc_err : Str) :
    List Str → Str × Str
  | [] => (acc_out, acc_err)
  | path :: rest =>
    match fs path with
    | .ok contents => handle_cat_loop fs (acc_out ++ contents) acc_err rest
    | .fileNotFound =>
      handle_cat_loop fs acc_out
        (acc_err ++ ("cat: ".toList ++ path ++ ": No such file or directory\n".toList)) rest
    | .permissionDenied =>
      handle_cat_loop fs acc_out
        (acc_err ++ ("cat: ".toList ++ path ++ ": Permission denied\n".toList)) rest

/-- Handler `handle_cat_command(args)` over an abstract file system. -/
def handle_cat_command (fs : Str → ReadOutcome) (args : List Str) : Str × Str :=
  handle_cat_loop fs [] [] args

/-- What one path contributes to `cat`'s stdout. -/
def cat_read_part (fs : Str → ReadOutcome) (path : Str) : Str :=
  match fs path with
  | .ok contents => contents
  | _ => []

/-- What one path contributes to `cat`'s stderr. -/
def cat_err_part (fs : Str → ReadOutcome) (path : Str) : Str :=
  match fs path with
  | .ok _ => []
  | .fileNotFound => "cat: ".toList ++ path ++ ": No such file or directory\n".toList
  | .permissionDenied => "cat: ".toList ++ path ++ ": Permission denied\n".toList

/-- A file system in which `real.txt` holds `"data\n"` and every other
path is missing. -/
def exampleCatFs : Str → ReadOutcome := fun path =>
  if path = "real.txt".toList then .ok ("data\n".toList) else .fileNotFound

/-! ## Process executor (`execute_subprocess`) -/

/-- What `subprocess.run` reports about a completed child process. -/
structure RunResult where
  returncode : Int
  stdout : Str
  stderr : Str
deriving DecidableEq, Repr

/-- Call `subprocess.run([command] + args, capture_output=True, text=True,
check=True)`: with `check=True` a nonzero exit status raises
`CalledProcessError` (modelled as `.error`, carrying the captured
output). -/
def subprocess_run (spawn : List Str → RunResult) (argv : List Str) :
    Except RunResult (Str × Str) :=
  let result := spawn argv
  if result.returncode = 0 then .ok (result.stdout, result.stderr) else .error result

/-- Function `execute_subprocess(command, args)`: the `except
subprocess.CalledProcessError` branch returns `e.stdout, e.stderr`. -/
def execute_subprocess (spawn : List Str → RunResult) (command : Str)
    (args : List Str) : Str × Str :=
  match subprocess_run spawn (command :: args) with
  | .ok r => r
  | .error e => (e.stdout, e.stderr)

/-- A spawner whose child always exits with status 1. -/
def failingSpawn : List Str → RunResult :=
  fun _ => ⟨1, "out".toList, "err".toList⟩

/-! ## Redirection parser (`parse_command_redirection`) -/

/-- The state threaded through the `while` loop of
`parse_command_redirection`: the residual argument list, the current
stdout/stderr targets and the current modes (`'w'` truncate, `'a'`
append — Python's file-open mode characters). -/
structure ParseState where
  remaining_args : List Str
  stdout_file : Option Str
  stderr_file : Option Str
  stdout_mode : Char
  stderr_mode : Char
deriving DecidableEq, Repr

/-- Classification of one token by the `if/elif` chain of
`parse_command_redirection`, in the source's branch order:
spaced operators (`'>>' | '1>>'`, `'>' | '1>'`, `'2>>'`, `'2>'`) consume
the following token as the filename; compact operators (`startswith`
plus a length guard, filename = the rest of the token) consume nothing
further; everything else is a plain argument. -/
inductive Step where
  | spacedOut (mode : Char)
  | spacedErr (mode : Char)
  | compactOut (mode : Char) (file : Str)
  | compactErr (mode : Char) (file : Str)
  | plain
deriving DecidableEq, Repr

/-- The branch conditions of `parse_command_redirection`, in source
order.  `arg.take n = op` with `n < arg.length` renders Python's
`arg.startswith(op) and len(arg) > n`. -/
def classify (arg : Str) : Step :=
  if arg = ['>', '>'] ∨ arg = ['1', '>', '>'] then .spacedOut 'a'
  else if arg = ['>'] ∨ arg = ['1', '>'] then .spacedOut 'w'
  else if arg = ['2', '>', '>'] then .spacedErr 'a'
  else if arg = ['2', '>'] then .spacedErr 'w'
  else if arg.take 3 = ['2', '>', '>'] ∧ 3 < arg.length then .compactErr 'a' (arg.drop 3)
  else if arg.take 2 = ['2', '>'] ∧ 2 < arg.length then .compactErr 'w' (arg.drop 2)
  else if arg.take 3 = ['1', '>', '>'] ∧ 3 < arg.length then .compactOut 'a' (arg.drop 3)
  else if arg.take 2 = ['1', '>'] ∧ 2 < arg.length then .compactOut 'w' (arg.drop 2)
  else if arg.take 2 = ['>', '>'] ∧ 2 < arg.length then .compactOut 'a' (arg.drop 2)
  else if arg.take 1 = ['>'] ∧ 1 < arg.length then .compactOut 'w' (arg.drop 1)
  else .plain

/-- The `while` loop of `parse_command_redirection`.  A spaced operator
reads `cmd_args[i + 1]`; when that index is out of range Python raises
an uncaught `IndexError`, modelled by `none`. -/
def parseLoop : List Str → ParseState → Option ParseState
  | [], s => some s
  | arg :: rest, s =>
    match classify arg with
    | .spacedOut m =>
      match rest with
      | [] => none
      | fn :: rest2 => parseLoop rest2 { s with stdout_file := some fn, stdout_mode := m }
    | .spacedErr m =>
      match rest with
      | [] => none
      | fn :: rest2 => parseLoop rest2 { s with stderr_file := some fn, stderr_mode := m }
    | .compactOut m f => parseLoop rest { s with stdout_file := some f, stdout_mode := m }
    | .compactErr m f => parseLoop rest { s with stderr_file := some f, stderr_mode := m }
    | .plain => parseLoop rest { s with remaining_args := s.remaining_args ++ [arg] }

/-- Initial loop state: no targets, both modes `'w'`, empty residual. -/
def initState : ParseState := ⟨[], none, none, 'w', 'w'⟩

/-- Function `parse_command_redirection(cmd_args)`; `none` models the uncaught
`IndexError` raised when a spaced operator is the final token. -/
def parse_command_redirection (cmd_args : List Str) : Option ParseState :=
  parseLoop cmd_args initState

/-- Is a token one of the six spaced operators (the only branches that
consume the following token as a filename)? -/
def is_spaced_token (a : Str) : Bool :=
  match classify a with
  | .spacedOut _ => true
  | .spacedErr _ => true
  | _ => false

/-- Is a token retained by the scan (neither a spaced nor a compact
operator token)? -/
def is_plain_token (a : Str) : Bool :=
  match classify a with
  | .plain => true
  | _ => false

/-- Spec-side description (spec §4.2) of the residual argument list:
scanning left to right, an operator token exactly equal to one of the
six forms is removed together with the following token (consumed as the
filename); a token starting with one of the six forms is removed alone;
every other token is retained in its original relative position.
(Token recognition is shared with the source via `classify`, whose
branch conditions coincide with the spec's operator list.) -/
def residual_spec : List Str → List Str
  | [] => []
  | arg :: rest =>
    if is_spaced_token arg then residual_spec (rest.drop 1)
    else if is_plain_token arg then arg :: residual_spec rest
    else residual_spec rest
termination_by l => l.length
decreasing_by
  · simp only [List.length_cons, List.length_drop]
    omega
  · simp
  · simp

/-- Does a token's branch write the stdout target? -/
def touchesStdout (a : Str) : Bool :=
  match classify a with
  | .spacedOut _ => true
  | .compactOut _ _ => true
  | _ => false

/-- Does a token's branch write the stderr target? -/
def touchesStderr (a : Str) : Bool :=
  match classify a with
  | .spacedErr _ => true
  | .compactErr _ _ => true
  | _ => false

/-! ## Output router (`main`, lines routing `(stdout, stderr)`, and
`write_output_to_file`) -/

/-- The externally visible write actions of the output-routing block of
`main`: a call to `write_output_to_file(filename, content, mode)`, a
`print(..., end='')` to the terminal's stdout, or a
`print(..., end='', file=sys.stderr)`. -/
inductive RouteAction where
  | writeFile (filename : Str) (content : Str) (mode : Char)
  | printOut (text : Str)
  | printErr (text : Str)
deriving DecidableEq, Repr

/-- Block `if stdout_file: write_output_to_file(...) elif stdout: print(...)`
— note both tests are Python truthiness. -/
def route_stdout (stdout_file : Option Str) (stdout : Str) (mode : Char) :
    List RouteAction :=
  if truthy stdout_file then [.writeFile (stdout_file.getD []) stdout mode]
  else if !stdout.isEmpty then [.printOut stdout]
  else []

/-- Block `if stderr_file: write_output_to_file(...) elif stderr:
print(..., file=sys.stderr)`. -/
def route_stderr (stderr_file : Option Str) (stderr : Str) (mode : Char) :
    List RouteAction :=
  if truthy stderr_file then [.writeFile (stderr_file.getD []) stderr mode]
  else if !stderr.isEmpty then [.printErr stderr]
  else []

/-- The whole routing block of `main`, stdout block then stderr block. -/
def route_output (stdout_file stderr_file : Option Str) (stdout stderr : Str)
    (stdout_mode stderr_mode : Char) : List RouteAction :=
  route_stdout stdout_file stdout stdout_mode ++ route_stderr stderr_file stderr stderr_mode

/-! ## Parser lemmas -/

/-- Scanning a concatenation: when the scan of `xs` completes without a
dangling spaced operator, scanning `xs ++ ys` continues into `ys` from
the state reached after `xs`. -/
theorem parseLoop_append (xs : List Str) (s r : ParseState) (ys : List Str)
    (h : parseLoop xs s = some r) :
    parseLoop (xs ++ ys) s = parseLoop ys r := by
  induction xs, s using parseLoop.induct with
  | case1 s =>
    simp only [parseLoop] at h
    cases h
    simp
  | case2 arg s m hc =>
    simp only [parseLoop, hc] at h
    cases h
  | case3 arg s m hc fn rest2 ih =>
    simp only [List.cons_append, parseLoop, hc] at h ⊢
    exact ih h
  | case4 arg s m hc =>
    simp only [parseLoop, hc] at h
    cases h
  | case5 arg s m hc fn rest2 ih =>
    simp only [List.cons_append, parseLoop, hc] at h ⊢
    exact ih h
  | case6 arg rest s m f hc ih =>
    simp only [List.cons_append, parseLoop, hc] at h ⊢
    exact ih h
  | case7 arg rest s m f hc ih =>
    simp only [List.cons_append, parseLoop, hc] at h ⊢
    exact ih h
  | case8 arg rest s hc ih =>
    simp only [List.cons_append, parseLoop, hc] at h ⊢
    exact ih h

/-- A scan over plain tokens only appends them all to the residual list
and leaves targets and modes untouched. -/
theorem parseLoop_plain (ys : List Str) (s : ParseState)
    (h : ∀ a ∈ ys, classify a = Step.plain) :
    parseLoop ys s = some { s with remaining_args := s.remaining_args ++ ys } := by
  induction ys generalizing s with
  | nil => simp [parseLoop]
  | cons a rest ih =>
    have ha : classify a = Step.plain := h a (by simp)
    simp only [parseLoop, ha]
    rw [ih _ fun b hb => h b (by simp [hb])]
    simp

/-- Whatever a completed scan returns as residual arguments is the old
residual extended by an order-preserving selection of plain input
tokens. -/
theorem parseLoop_residual (xs : List Str) (s r : ParseState)
    (h : parseLoop xs s = some r) :
    ∃ t, r.remaining_args = s.remaining_args ++ t ∧ t.Sublist xs ∧
      ∀ a ∈ t, classify a = Step.plain := by
  induction xs, s using parseLoop.induct with
  | case1 s =>
    simp only [parseLoop] at h
    cases h
    exact ⟨[], by simp⟩
  | case2 arg s m hc =>
    simp only [parseLoop, hc] at h
    cases h
  | case3 arg s m hc fn rest2 ih =>
    simp only [parseLoop, hc] at h
    obtain ⟨t, ht1, ht2, ht3⟩ := ih h
    exact ⟨t, ht1, (ht2.cons fn).cons arg, ht3⟩
  | case4 arg s m hc =>
    simp only [parseLoop, hc] at h
    cases h
  | case5 arg s m hc fn rest2 ih =>
    simp only [parseLoop, hc] at h
    obtain ⟨t, ht1, ht2, ht3⟩ := ih h
    exact ⟨t, ht1, (ht2.cons fn).cons arg, ht3⟩
  | case6 arg rest s m f hc ih =>
    simp only [parseLoop, hc] at h
    obtain ⟨t, ht1, ht2, ht3⟩ := ih h
    exact ⟨t, ht1, ht2.cons arg, ht3⟩
  | case7 arg rest s m f hc ih =>
    simp only [parseLoop, hc] at h
    obtain ⟨t, ht1, ht2, ht3⟩ := ih h
    exact ⟨t, ht1, ht2.cons arg, ht3⟩
  | case8 arg rest s hc ih =>
    simp only [parseLoop, hc] at h
    obtain ⟨t, ht1, ht2, ht3⟩ := ih h
    refine ⟨arg :: t, by simp [ht1], ht2.cons₂ arg, ?_⟩
    intro b hb
    rcases List.mem_cons.mp hb with hb | hb
    · simpa [hb] using hc
    · exact ht3 b hb

/-- The residual list a completed scan returns is exactly the old
residual extended by the spec-side residual of the scanned tokens. -/
theorem parseLoop_remaining (xs : List Str) (s r : ParseState)
    (h : parseLoop xs s = some r) :
    r.remaining_args = s.remaining_args ++ residual_spec xs := by
  induction xs, s using parseLoop.induct with
  | case1 s =>
    simp only [parseLoop] at h
    cases h
    simp [residual_spec]
  | case2 arg s m hc =>
    simp only [parseLoop, hc] at h
    cases h
  | case3 arg s m hc fn rest2 ih =>
    simp only [parseLoop, hc] at h
    simp [residual_spec, is_spaced_token, hc]
    exact ih h
  | case4 arg s m hc =>
    simp only [parseLoop, hc] at h
    cases h
  | case5 arg s m hc fn rest2 ih =>
    simp only [parseLoop, hc] at h
    simp [residual_spec, is_spaced_token, hc]
    exact ih h
  | case6 arg rest s m f hc ih =>
    simp only [parseLoop, hc] at h
    simp [residual_spec, is_spaced_token, is_plain_token, hc]
    exact ih h
  | case7 arg rest s m f hc ih =>
    simp only [parseLoop, hc] at h
    simp [residual_spec, is_spaced_token, is_plain_token, hc]
    exact ih h
  | case8 arg rest s hc ih =>
    simp only [parseLoop, hc] at h
    simp [residual_spec, is_spaced_token, is_plain_token, hc]
    rw [ih h]
    simp

/-- With no spaced operator in sight (so no token is consumed as a
filename), the spec-side residual retains precisely every
non-operator token, in order. -/
theorem residual_spec_filter (args : List Str)
    (h : ∀ a ∈ args, is_spaced_token a = false) :
    residual_spec args = args.filter is_plain_token := by
  induction args with
  | nil => simp [residual_spec]
  | cons a rest ih =>
    have ha := h a (by simp)
    have hrest := fun b hb => h b (List.mem_cons_of_mem a hb)
    cases hc : classify a with
    | spacedOut m => simp [is_spaced_token, hc] at ha
    | spacedErr m => simp [is_spaced_token, hc] at ha
    | compactOut m f =>
      have e1 : residual_spec (a :: rest) = residual_spec rest := by
        simp [residual_spec, is_spaced_token, is_plain_token, hc]
      have e2 : is_plain_token a = false := by simp [is_plain_token, hc]
      rw [e1, List.filter_cons, e2, ih hrest]
      simp
    | compactErr m f =>
      have e1 : residual_spec (a :: rest) = residual_spec rest := by
        simp [residual_spec, is_spaced_token, is_plain_token, hc]
      have e2 : is_plain_token a = false := by simp [is_plain_token, hc]
      rw [e1, List.filter_cons, e2, ih hrest]
      simp
    | plain =>
      have e1 : residual_spec (a :: rest) = a :: residual_spec rest := by
        simp [residual_spec, is_spaced_token, is_plain_token, hc]
      have e2 : is_plain_token a = true := by simp [is_plain_token, hc]
      rw [e1, List.filter_cons, e2, ih hrest]
      simp

/-- A completed scan over tokens none of which selects the stdout
stream leaves the stdout target and mode unchanged. -/
theorem parseLoop_stdout_invariant (ys : List Str) (s r : ParseState)
    (hys : ∀ a ∈ ys, touchesStdout a = false)
    (h : parseLoop ys s = some r) :
    r.stdout_file = s.stdout_file ∧ r.stdout_mode = s.stdout_mode := by
  induction ys, s using parseLoop.induct with
  | case1 s =>
    simp only [parseLoop] at h
    cases h
    exact ⟨rfl, rfl⟩
  | case2 arg s m hc =>
    simp only [parseLoop, hc] at h
    cases h
  | case3 arg s m hc fn rest2 ih =>
    have := hys arg (by simp)
    simp [touchesStdout, hc] at this
  | case4 arg s m hc =>
    simp only [parseLoop, hc] at h
    cases h
  | case5 arg s m hc fn rest2 ih =>
    simp only [parseLoop, hc] at h
    exact ih (fun b hb => hys b (by simp [hb])) h
  | case6 arg rest s m f hc ih =>
    have := hys arg (by simp)
    simp [touchesStdout, hc] at this
  | case7 arg rest s m f hc ih =>
    simp only [parseLoop, hc] at h
    exact ih (fun b hb => hys b (by simp [hb])) h
  | case8 arg rest s hc ih =>
    simp only [parseLoop, hc] at h
    exact ih (fun b hb => hys b (by simp [hb])) h

/-- A completed scan over tokens none of which selects the stderr
stream leaves the stderr target and mode unchanged. -/
theorem parseLoop_stderr_invariant (ys : List Str) (s r : ParseState)
    (hys : ∀ a ∈ ys, touchesStderr a = false)
    (h : parseLoop ys s = some r) :
    r.stderr_file = s.stderr_file ∧ r.stderr_mode = s.stderr_mode := by
  induction ys, s using parseLoop.induct with
  | case1 s =>
    simp only [parseLoop] at h
    cases h
    exact ⟨rfl, rfl⟩
  | case2 arg s m hc =>
    simp only [parseLoop, hc] at h
    cases h
  | case3 arg s m hc fn rest2 ih =>
    simp only [parseLoop, hc] at h
    exact ih (fun b hb => hys b (by simp [hb])) h
  | case4 arg s m hc =>
    simp only [parseLoop, hc] at h
    cases h
  | case5 arg s m hc fn rest2 ih =>
    have := hys arg (by simp)
    simp [touchesStderr, hc] at this
  | case6 arg rest s m f hc ih =>
    simp only [parseLoop, hc] at h
    exact ih (fun b hb => hys b (by simp [hb])) h
  | case7 arg rest s m f hc ih =>
    have := hys arg (by simp)
    simp [touchesStderr, hc] at this
  | case8 arg rest s hc ih =>
    simp only [parseLoop, hc] at h
    exact ih (fun b hb => hys b (by simp [hb])) h

/-- Token `'>' + f` classifies as the compact truncate-stdout operator when
`f` is nonempty and does not itself begin with `'>'`. -/
theorem classify_compact_gt (f : Str) (hf : f ≠ []) (hh : f.head? ≠ some '>') :
    classify (['>'] ++ f) = Step.compactOut 'w' f := by
  obtain ⟨c, t, rfl⟩ := List.exists_cons_of_ne_nil hf
  simp only [List.head?_cons, ne_eq, Option.some.injEq] at hh
  simp +decide [classify, hh]

/-- Token `'>>' + f` classifies as the compact append-stdout operator for any
nonempty `f`. -/
theorem classify_compact_gtgt (f : Str) (hf : f ≠ []) :
    classify (['>', '>'] ++ f) = Step.compactOut 'a' f := by
  obtain ⟨c, t, rfl⟩ := List.exists_cons_of_ne_nil hf
  simp +decide [classify]

/-- Token `'1>' + f` classifies as the compact truncate-stdout operator when
`f` is nonempty and does not itself begin with `'>'`. -/
theorem classify_compact_onegt (f : Str) (hf : f ≠ []) (hh : f.head? ≠ some '>') :
    classify (['1', '>'] ++ f) = Step.compactOut 'w' f := by
  obtain ⟨c, t, rfl⟩ := List.exists_cons_of_ne_nil hf
  simp only [List.head?_cons, ne_eq, Option.some.injEq] at hh
  simp +decide [classify, hh]

/-- Token `'1>>' + f` classifies as the compact append-stdout operator for
any nonempty `f`. -/
theorem classify_compact_onegtgt (f : Str) (hf : f ≠ []) :
    classify (['1', '>', '>'] ++ f) = Step.compactOut 'a' f := by
  obtain ⟨c, t, rfl⟩ := List.exists_cons_of_ne_nil hf
  simp +decide [classify]

/-- Token `'2>' + f` classifies as the compact truncate-stderr operator when
`f` is nonempty and does not itself begin with `'>'`. -/
theorem classify_compact_twogt (f : Str) (hf : f ≠ []) (hh : f.head? ≠ some '>') :
    classify (['2', '>'] ++ f) = Step.compactErr 'w' f := by
  obtain ⟨c, t, rfl⟩ := List.exists_cons_of_ne_nil hf
  simp only [List.head?_cons, ne_eq, Option.some.injEq] at hh
  simp +decide [classify, hh]

/-- Token `'2>>' + f` classifies as the compact append-stderr operator for
any nonempty `f`. -/
theorem classify_compact_twogtgt (f : Str) (hf : f ≠ []) :
    classify (['2', '>', '>'] ++ f) = Step.compactErr 'a' f := by
  obtain ⟨c, t, rfl⟩ := List.exists_cons_of_ne_nil hf
  simp +decide [classify]

/-! ## Claim theorems -/

/-- C2: on a token list ending in a spaced redirection operator with no
following filename token, `parse_command_redirection` reads
`cmd_args[i + 1]` past the end of the list: the uncaught `IndexError`
(modelled by `none`) aborts the whole program, so no diagnostic is
emitted and the command is not executed. -/
theorem dangling_operator_raises (args : List Str) (op : Str)
    (hargs : ∀ a ∈ args, classify a = Step.plain)
    (hop : (∃ m, classify op = Step.spacedOut m) ∨ ∃ m, classify op = Step.spacedErr m) :
    parse_command_redirection (args ++ [op]) = none := by
  unfold parse_command_redirection
  rw [parseLoop_append args initState _ [op] (parseLoop_plain args initState hargs)]
  rcases hop with ⟨m, hm⟩ | ⟨m, hm⟩ <;> simp [parseLoop, hm]

/-- Witness for `dangling_operator_raises`: the command line
`echo hi >` (argument tokens `hi`, `>`) crashes the parser. -/
theorem dangling_operator_raises_witness :
    parse_command_redirection [['h', 'i'], ['>']] = none :=
  dangling_operator_raises [['h', 'i']] ['>'] (by decide) (.inl ⟨'w', by decide⟩)

/-- C4: a completed parse returns as residual argument list exactly the
spec-described residual — every non-operator token retained in its
original relative position, operator tokens and their consumed
filenames removed.  Consequently the residual is an order-preserving
subsequence of the input containing no operator token; when no spaced
operator occurs (so nothing is consumed as a filename) the residual is
precisely the filter of all non-operator tokens; and an input with no
operator tokens at all is returned whole, with no redirection
requested. -/
theorem residual_args_preserved :
    (∀ args r, parse_command_redirection args = some r →
        r.remaining_args = residual_spec args)
  ∧ (∀ args r, parse_command_redirection args = some r →
        r.remaining_args.Sublist args ∧ ∀ a ∈ r.remaining_args, classify a = Step.plain)
  ∧ (∀ args r, (∀ a ∈ args, is_spaced_token a = false) →
        parse_command_redirection args = some r →
        r.remaining_args = args.filter is_plain_token)
  ∧ (∀ args, (∀ a ∈ args, classify a = Step.plain) →
        parse_command_redirection args = some ⟨args, none, none, 'w', 'w'⟩) := by
  refine ⟨?_, ?_, ?_, ?_⟩
  · intro args r h
    have h1 := parseLoop_remaining args initState r h
    simpa [initState] using h1
  · intro args r h
    obtain ⟨t, ht1, ht2, ht3⟩ := parseLoop_residual args initState r h
    simp only [initState, List.nil_append] at ht1
    rw [ht1]
    exact ⟨ht2, ht3⟩
  · intro args r hs h
    have h1 := parseLoop_remaining args initState r h
    simp only [initState, List.nil_append] at h1
    rw [h1, residual_spec_filter args hs]
  · intro args h
    have := parseLoop_plain args initState h
    simpa [parse_command_redirection, initState] using this

/-- Witness for `residual_args_preserved`: an operator-free argument
list passes through unchanged, and with `a > f z` the residual is the
spec-side residual `a z` — the filename `f` consumed, the plain tokens
retained in order. -/
theorem residual_args_preserved_witness :
    parse_command_redirection [['a'], ['b']] = some ⟨[['a'], ['b']], none, none, 'w', 'w'⟩ ∧
      (ParseState.remaining_args ⟨[['a'], ['z']], some ['f'], none, 'w', 'w'⟩) =
        residual_spec [['a'], ['>'], ['f'], ['z']] :=
  ⟨residual_args_preserved.2.2.2 [['a'], ['b']] (by decide),
   residual_args_preserved.1 [['a'], ['>'], ['f'], ['z']]
     ⟨[['a'], ['z']], some ['f'], none, 'w', 'w'⟩ (by decide)⟩

/-- C5 (amended): for a nonempty filename, the compact token
`operator + filename` is parsed exactly like the spaced pair
`operator, filename`, from any loop state — provided the filename does
not begin with `'>'` when the operator is one of the truncate forms
`>`, `1>`, `2>` (otherwise the compact token is recognised as the
corresponding append operator). -/
theorem compact_spaced_equivalent (op f : Str) (rest : List Str) (s : ParseState)
    (hop : op ∈ [['>'], ['>', '>'], ['1', '>'], ['1', '>', '>'], ['2', '>'], ['2', '>', '>']])
    (hf : f ≠ [])
    (hh : op ∈ [['>'], ['1', '>'], ['2', '>']] → f.head? ≠ some '>') :
    parseLoop ((op ++ f) :: rest) s = parseLoop (op :: f :: rest) s := by
  simp only [List.mem_cons, List.not_mem_nil, or_false] at hop
  rcases hop with rfl | rfl | rfl | rfl | rfl | rfl
  · simp only [parseLoop, classify_compact_gt f hf (hh (by simp)),
      show classify ['>'] = Step.spacedOut 'w' from by decide]
  · simp only [parseLoop, classify_compact_gtgt f hf,
      show classify ['>', '>'] = Step.spacedOut 'a' from by decide]
  · simp only [parseLoop, classify_compact_onegt f hf (hh (by simp)),
      show classify ['1', '>'] = Step.spacedOut 'w' from by decide]
  · simp only [parseLoop, classify_compact_onegtgt f hf,
      show classify ['1', '>', '>'] = Step.spacedOut 'a' from by decide]
  · simp only [parseLoop, classify_compact_twogt f hf (hh (by simp)),
      show classify ['2', '>'] = Step.spacedErr 'w' from by decide]
  · simp only [parseLoop, classify_compact_twogtgt f hf,
      show classify ['2', '>', '>'] = Step.spacedErr 'a' from by decide]

/-- Witness for `compact_spaced_equivalent`: `>x` behaves like `> x`. -/
theorem compact_spaced_equivalent_witness :
    parseLoop [['>', 'x']] initState = parseLoop [['>'], ['x']] initState :=
  compact_spaced_equivalent ['>'] ['x'] [] initState (by decide) (by decide) (by decide)

/-- Counterexample to C5 as stated: for operator `>` and filename
`>f`, the compact token is `>>f`, which the parser reads as the append
operator `>>` with filename `f`, while the spaced form yields the
truncate operator with filename `>f`. -/
theorem compact_spaced_counterexample :
    parse_command_redirection [['>', '>', 'f']] ≠
      parse_command_redirection [['>'], ['>', 'f']] := by decide

/-- C6: the target and mode the parser reports for a stream are those
of the last operator for that stream in scan order.  Stated per
operator shape: after any cleanly scanned prefix `xs` (which may
contain arbitrary earlier operators for the stream), an operator for a
stream followed only by tokens that do not select that stream fixes
that stream's reported target file and mode. -/
theorem last_redirection_wins :
    (∀ xs r1 op m fn ys r2,
        parseLoop xs initState = some r1 →
        classify op = Step.spacedOut m →
        (∀ a ∈ ys, touchesStdout a = false) →
        parse_command_redirection (xs ++ op :: fn :: ys) = some r2 →
        r2.stdout_file = some fn ∧ r2.stdout_mode = m)
  ∧ (∀ xs r1 op m f ys r2,
        parseLoop xs initState = some r1 →
        classify op = Step.compactOut m f →
        (∀ a ∈ ys, touchesStdout a = false) →
        parse_command_redirection (xs ++ op :: ys) = some r2 →
        r2.stdout_file = some f ∧ r2.stdout_mode = m)
  ∧ (∀ xs r1 op m fn ys r2,
        parseLoop xs initState = some r1 →
        classify op = Step.spacedErr m →
        (∀ a ∈ ys, touchesStderr a = false) →
        parse_command_redirection (xs ++ op :: fn :: ys) = some r2 →
        r2.stderr_file = some fn ∧ r2.stderr_mode = m)
  ∧ (∀ xs r1 op m f ys r2,
        parseLoop xs initState = some r1 →
        classify op = Step.compactErr m f →
        (∀ a ∈ ys, touchesStderr a = false) →
        parse_command_redirection (xs ++ op :: ys) = some r2 →
        r2.stderr_file = some f ∧ r2.stderr_mode = m) := by
  refine ⟨?_, ?_, ?_, ?_⟩
  · intro xs r1 op m fn ys r2 hx hop hys h
    unfold parse_command_redirection at h
    rw [parseLoop_append xs initState r1 _ hx] at h
    simp only [parseLoop, hop] at h
    simpa using parseLoop_stdout_invariant ys _ r2 hys h
  · intro xs r1 op m f ys r2 hx hop hys h
    unfold parse_command_redirection at h
    rw [parseLoop_append xs initState r1 _ hx] at h
    simp only [parseLoop, hop] at h
    simpa using parseLoop_stdout_invariant ys _ r2 hys h
  · intro xs r1 op m fn ys r2 hx hop hys h
    unfold parse_command_redirection at h
    rw [parseLoop_append xs initState r1 _ hx] at h
    simp only [parseLoop, hop] at h
    simpa using parseLoop_stderr_invariant ys _ r2 hys h
  · intro xs r1 op m f ys r2 hx hop hys h
    unfold parse_command_redirection at h
    rw [parseLoop_append xs initState r1 _ hx] at h
    simp only [parseLoop, hop] at h
    simpa using parseLoop_stderr_invariant ys _ r2 hys h

/-- Witness for `last_redirection_wins`: in `> a >> b z` the stdout
target is `b` in append mode, the earlier `> a` being overridden. -/
theorem last_redirection_wins_witness :
    (ParseState.stdout_file ⟨[['z']], some ['b'], none, 'a', 'w'⟩) = some ['b'] ∧
      (ParseState.stdout_mode ⟨[['z']], some ['b'], none, 'a', 'w'⟩) = 'a' :=
  last_redirection_wins.1 [['>'], ['a']] ⟨[], some ['a'], none, 'w', 'w'⟩
    ['>', '>'] 'a' ['b'] [['z']] ⟨[['z']], some ['b'], none, 'a', 'w'⟩
    (by decide) (by decide) (by decide) (by decide)

/-- C1: with search path `/a:/b` and an executable `foo` present in
both directories, the startup cache maps `foo` to `/b/foo` — the path
in the *last* search-path directory, because each directory's scan
overwrites earlier `dict` entries — not to `/a/foo` as search-path
precedence (and the path resolution performed by `subprocess.run` when
the command is actually executed) would require. -/
theorem discover_cache_last_directory_wins :
    discover_system_executables cacheDemoSys [['/', 'a'], ['/', 'b']] ("foo".toList) =
        some ("/b/foo".toList) ∧
      discover_system_executables cacheDemoSys [['/', 'a'], ['/', 'b']] ("foo".toList) ≠
        some ("/a/foo".toList) := by
  decide

/-- C3: `type` classification is total and exclusive — a missing
argument is reported on stderr; for any queried name the handler
produces the builtin message (only for a registered builtin other than
`cat`), the full-path message (only with a truthy cache entry), or the
not-found message; exactly one stream carries the report; and `cat`'s
answer never comes from the builtin branch (it is independent of the
builtin registry). -/
theorem type_classification_total :
    (∀ cache, handle_type_command cache builtin_commands [] =
        ([], "type: missing argument\n".toList))
  ∧ (∀ cache name rest,
      (handle_type_command cache builtin_commands (name :: rest) =
          (name ++ " is a shell builtin\n".toList, []) ∧
        name ∈ builtin_commands ∧ name ≠ "cat".toList)
      ∨ (∃ p, cache name = some p ∧ p ≠ [] ∧
          handle_type_command cache builtin_commands (name :: rest) =
            (name ++ " is ".toList ++ p ++ ['\n'], []))
      ∨ handle_type_command cache builtin_commands (name :: rest) =
          ([], name ++ ": not found\n".toList))
  ∧ (∀ cache name rest,
      ((handle_type_command cache builtin_commands (name :: rest)).1 ≠ [] ∧
        (handle_type_command cache builtin_commands (name :: rest)).2 = [])
      ∨ ((handle_type_command cache builtin_commands (name :: rest)).1 = [] ∧
        (handle_type_command cache builtin_commands (name :: rest)).2 ≠ []))
  ∧ (∀ cache commands rest,
      handle_type_command cache commands ("cat".toList :: rest) =
        handle_type_command cache [] ("cat".toList :: rest)) := by
  refine ⟨fun cache => rfl, ?_, ?_, ?_⟩
  · intro cache name rest
    simp only [handle_type_command]
    by_cases hb : name ∈ builtin_commands ∧ name ≠ "cat".toList
    · rw [if_pos hb]
      exact .inl ⟨rfl, hb⟩
    · rw [if_neg hb]
      cases hc : cache name with
      | none => exact .inr (.inr (by simp [truthy]))
      | some p =>
        cases p with
        | nil => exact .inr (.inr (by simp [truthy]))
        | cons c t =>
          refine .inr (.inl ⟨c :: t, rfl, by simp, ?_⟩)
          simp [truthy]
  · intro cache name rest
    simp only [handle_type_command]
    by_cases hb : name ∈ builtin_commands ∧ name ≠ "cat".toList
    · rw [if_pos hb]
      exact .inl ⟨by simp +decide [List.append_eq_nil], rfl⟩
    · rw [if_neg hb]
      cases hc : cache name with
      | none => exact .inr (by simp +decide [truthy, List.append_eq_nil])
      | some p =>
        cases p with
        | nil => exact .inr (by simp +decide [truthy, List.append_eq_nil])
        | cons c t => exact .inl (by simp +decide [truthy, List.append_eq_nil])
  · intro cache commands rest
    simp [handle_type_command]

/-- C7: a child process exiting with nonzero status is not escalated:
`execute_subprocess` returns the captured stdout and stderr text
exactly as produced, in the same `(stdout, stderr)` pair shape as the
builtin handlers. -/
theorem nonzero_exit_not_escalated (spawn : List Str → RunResult) (command : Str)
    (args : List Str) (h : (spawn (command :: args)).returncode ≠ 0) :
    execute_subprocess spawn command args =
      ((spawn (command :: args)).stdout, (spawn (command :: args)).stderr) := by
  simp [execute_subprocess, subprocess_run, h]

/-- Witness for `nonzero_exit_not_escalated`: a child exiting with
status 1 still has its output returned verbatim. -/
theorem nonzero_exit_not_escalated_witness :
    execute_subprocess failingSpawn ("foo".toList) [] = ("out".toList, "err".toList) :=
  nonzero_exit_not_escalated failingSpawn ("foo".toList) [] (by decide)

/-- C8: when `os.chdir` fails with either caught error, `cd` returns
empty stdout, a single stderr line embedding the computed target, and
the working directory is unchanged. -/
theorem cd_failure_preserves_cwd (home : Option Str) (chdir : Str → Str → ChdirOutcome)
    (cwd : Str) (args : List Str)
    (h : chdir cwd (cd_target home args) = ChdirOutcome.fileNotFound ∨
         chdir cwd (cd_target home args) = ChdirOutcome.permissionDenied) :
    (handle_change_directory home chdir cwd args).2 = cwd ∧
    (handle_change_directory home chdir cwd args).1.1 = [] ∧
    ((handle_change_directory home chdir cwd args).1.2 =
        "cd: ".toList ++ cd_target home args ++ ": No such file or directory\n".toList ∨
      (handle_change_directory home chdir cwd args).1.2 =
        "cd: ".toList ++ cd_target home args ++ ": Permission denied\n".toList) ∧
    ('\n' ∉ cd_target home args →
      ((handle_change_directory home chdir cwd args).1.2).count '\n' = 1) := by
  rcases h with h | h
  · refine ⟨by simp [handle_change_directory, h], by simp [handle_change_directory, h],
      .inl (by simp [handle_change_directory, h]), ?_⟩
    intro hn
    simp only [handle_change_directory, h]
    simp [List.count_append, List.count_eq_zero.mpr hn]
  · refine ⟨by simp [handle_change_directory, h], by simp [handle_change_directory, h],
      .inr (by simp [handle_change_directory, h]), ?_⟩
    intro hn
    simp only [handle_change_directory, h]
    simp [List.count_append, List.count_eq_zero.mpr hn]

/-- Witness for `cd_failure_preserves_cwd`: `cd x` against a
filesystem with no directories leaves the working directory `/w`
untouched and emits one stderr line. -/
theorem cd_failure_preserves_cwd_witness :
    (handle_change_directory none failChdir ['/', 'w'] [['x']]).2 = ['/', 'w'] ∧
      ((handle_change_directory none failChdir ['/', 'w'] [['x']]).1.2).count '\n' = 1 :=
  ⟨(cd_failure_preserves_cwd none failChdir ['/', 'w'] [['x']] (.inl rfl)).1,
   (cd_failure_preserves_cwd none failChdir ['/', 'w'] [['x']] (.inl rfl)).2.2.2 (by decide)⟩

/-- The accumulator form of `handle_cat_command`'s loop: each path
contributes its contents to stdout or its one error line to stderr, in
argument order. -/
theorem handle_cat_loop_spec (fs : Str → ReadOutcome) (args : List Str)
    (acc_out acc_err : Str) :
    handle_cat_loop fs acc_out acc_err args =
      (acc_out ++ (args.map (cat_read_part fs)).flatten,
       acc_err ++ (args.map (cat_err_part fs)).flatten) := by
  induction args generalizing acc_out acc_err with
  | nil => simp [handle_cat_loop]
  | cons p rest ih =>
    cases hp : fs p <;>
      simp [handle_cat_loop, hp, ih, cat_read_part, cat_err_part, List.append_assoc]

/-- C9: `cat` concatenates, in argument order, the contents of exactly
the readable paths onto stdout, and each unreadable path contributes
exactly its own one-line message to stderr without stopping the scan;
in particular `cat missing.txt real.txt` yields `data\n` on stdout and
one not-found line naming `missing.txt` on stderr. -/
theorem cat_concatenates_readable :
    (∀ fs args, handle_cat_command fs args =
        ((args.map (cat_read_part fs)).flatten, (args.map (cat_err_part fs)).flatten))
  ∧ (∀ fs, fs ("missing.txt".toList) = ReadOutcome.fileNotFound →
      fs ("real.txt".toList) = ReadOutcome.ok ("data\n".toList) →
      handle_cat_command fs ["missing.txt".toList, "real.txt".toList] =
        ("data\n".toList, "cat: missing.txt: No such file or directory\n".toList)) := by
  have main : ∀ fs args, handle_cat_command fs args =
      ((args.map (cat_read_part fs)).flatten, (args.map (cat_err_part fs)).flatten) :=
    fun fs args => by simpa [handle_cat_command] using handle_cat_loop_spec fs args [] []
  refine ⟨main, ?_⟩
  intro fs h1 h2
  have e1 : cat_read_part fs ("missing.txt".toList) = [] := by
    unfold cat_read_part
    rw [h1]
  have e2 : cat_read_part fs ("real.txt".toList) = "data\n".toList := by
    unfold cat_read_part
    rw [h2]
  have e3 : cat_err_part fs ("missing.txt".toList) =
      "cat: ".toList ++ "missing.txt".toList ++ ": No such file or directory\n".toList := by
    unfold cat_err_part
    rw [h1]
  have e4 : cat_err_part fs ("real.txt".toList) = [] := by
    unfold cat_err_part
    rw [h2]
  simp at e1 e2 e3 e4
  rw [main]
  simp +decide [e1, e2, e3, e4]

/-- Witness for `cat_concatenates_readable`: the spec's example against
the concrete file system `exampleCatFs`. -/
theorem cat_concatenates_readable_witness :
    handle_cat_command exampleCatFs ["missing.txt".toList, "real.txt".toList] =
      ("data\n".toList, "cat: missing.txt: No such file or directory\n".toList) :=
  cat_concatenates_readable.2 exampleCatFs (by decide) (by decide)

/-- C10 (amended): a *nonempty* target filename is written even when
the stream's text is empty (so a truncate target gets created or
emptied), while with no target an empty stream produces no terminal
write at all.  (A target that is the empty string is falsy in Python
and is treated as no redirection — see the counterexample.) -/
theorem empty_output_still_written (f : Str) (m m2 : Char) (hf : f ≠ []) :
    route_output (some f) none [] [] m m2 = [RouteAction.writeFile f [] m] ∧
    route_output none (some f) [] [] m m2 = [RouteAction.writeFile f [] m2] ∧
    route_output none none [] [] m m2 = [] := by
  obtain ⟨c, t, rfl⟩ := List.exists_cons_of_ne_nil hf
  refine ⟨?_, ?_, ?_⟩ <;> simp [route_output, route_stdout, route_stderr, truthy]

/-- Witness for `empty_output_still_written`. -/
theorem empty_output_still_written_witness :
    route_output (some ['o']) none [] [] 'w' 'a' = [RouteAction.writeFile ['o'] [] 'w'] ∧
    route_output none (some ['o']) [] [] 'w' 'a' = [RouteAction.writeFile ['o'] [] 'a'] ∧
    route_output none none [] [] 'w' 'a' = [] :=
  empty_output_still_written ['o'] 'w' 'a' (by decide)

/-- Counterexample to C10 as stated: a redirection spec whose stdout
target is the empty string (as produced by `echo >` with a quoted empty
filename token) is falsy under `if stdout_file:`, so the file is *not*
opened or written — no write action at all is emitted. -/
theorem route_empty_target_counterexample :
    ¬ route_output (some []) none [] [] 'w' 'w' = [RouteAction.writeFile [] [] 'w'] ∧
      route_output (some []) none [] [] 'w' 'w' = [] := by
  decide

end Shell
